import Mathlib

/-!
# BlogInsightHub — Scheduling & Candidate Pipeline Engine, shallow embedding

This development embeds the scheduling engine (`server/scheduler.ts`), the
schedule routes (`server/routes.ts`), the candidate pipeline of the
`POST /api/search/test` handler (`server/index.ts`), the lead routes, and the
settings storage (`server/storage.ts`) of the BlogInsightHub repository, and
proves or refutes the frozen claims about them.

Conventions:
* JavaScript `Date` values are modelled by `JsDateTime` (local calendar
  fields plus milliseconds-of-day); instants are compared lexicographically,
  which coincides with chronological order on valid calendar datetimes.
* External collaborators (node-cron's expression validation, the HTTP fetch
  helpers `hasEnoughImages` / `fetchEmailFromPage` / `fetchWordCount`, URL
  host parsing, the SerpAPI call) are passed in as explicit oracle
  parameters, exactly at the call boundaries where the source invokes them.
* The database tables touched by the claims are modelled as explicit lists;
  the `blogger_leads.url` UNIQUE constraint of `shared/schema.ts` makes the
  modelled insert fail on a duplicate URL.
-/

namespace BlogInsightHub

/-! ## JavaScript dates

`JsDateTime` models a JS `Date` in local time: year, zero-based month
(0–11 as in JS `getMonth`), day of month (1-based), and milliseconds since
midnight. -/

structure JsDateTime where
  year : Nat
  month : Nat
  day : Nat
  msOfDay : Nat
  deriving DecidableEq, Repr

/-- Leap-year rule used by the Gregorian calendar (and JS `Date`). -/
def isLeap (y : Nat) : Bool :=
  (y % 4 == 0 && y % 100 != 0) || y % 400 == 0

/-- Number of days in month `m` (0-based) of year `y`. -/
def daysInMonth (y m : Nat) : Nat :=
  match m with
  | 0 => 31
  | 1 => if isLeap y then 29 else 28
  | 2 => 31
  | 3 => 30
  | 4 => 31
  | 5 => 30
  | 6 => 31
  | 7 => 31
  | 8 => 30
  | 9 => 31
  | 10 => 30
  | _ => 31

/-- A structurally valid calendar datetime (the region on which the model
is faithful to JS `Date`). -/
def validDate (d : JsDateTime) : Prop :=
  d.month < 12 ∧ 1 ≤ d.day ∧ d.day ≤ daysInMonth d.year d.month ∧
    d.msOfDay < 86400000

/-- Chronological strict order on datetimes: lexicographic on
(year, month, day, msOfDay), which is chronological order for valid
calendar datetimes. -/
def dateLt (a b : JsDateTime) : Bool :=
  a.year < b.year ||
    (a.year == b.year &&
      (a.month < b.month ||
        (a.month == b.month &&
          (a.day < b.day || (a.day == b.day && a.msOfDay < b.msOfDay)))))

/-- JS `d.setDate(d.getDate() + k)` for small `k` (≤ 7 here): add `k` days,
rolling into the next month (and possibly the next year) on overflow.  For
valid dates and `k ≤ 7` the overflow never skips more than one month. -/
def addDaysJs (d : JsDateTime) (k : Nat) : JsDateTime :=
  let d' := d.day + k
  if d' ≤ daysInMonth d.year d.month then
    { d with day := d' }
  else if d.month = 11 then
    { year := d.year + 1, month := 0,
      day := d' - daysInMonth d.year d.month, msOfDay := d.msOfDay }
  else
    { d with month := d.month + 1, day := d' - daysInMonth d.year d.month }

/-- JS `d.setMonth(d.getMonth() + 1)`: move to the next month keeping the
day of month, rolling surplus days into the following month exactly as JS
normalizes (e.g. Jan 31 ↦ Mar 3).  For valid dates the day overflow never
crosses a year boundary (months following a 31-day month never overflow). -/
def addMonthJs (d : JsDateTime) : JsDateTime :=
  let y' := if d.month = 11 then d.year + 1 else d.year
  let m' := if d.month = 11 then 0 else d.month + 1
  if d.day ≤ daysInMonth y' m' then
    { year := y', month := m', day := d.day, msOfDay := d.msOfDay }
  else
    { year := y', month := m' + 1, day := d.day - daysInMonth y' m',
      msOfDay := d.msOfDay }

/-- JS `d.setHours(h, m, 0, 0)` for in-range `h`, `m`. -/
def setHoursJs (d : JsDateTime) (h m : Nat) : JsDateTime :=
  { d with msOfDay := (h * 60 + m) * 60000 }

/-! ## Schedule entity (`shared/schema.ts`, table `schedules`)

Only the fields read by the scheduler are kept.  `searchConfig` is a
nullable JSON column; the scheduler only tests it for presence, so the
payload is irrelevant here and modelled as `Unit`. -/

structure Schedule where
  id : String
  name : String
  frequency : String
  dayOfWeek : Option Nat
  dayOfMonth : Option Nat
  hour : Nat
  minute : Nat
  isEnabled : Bool
  enabledAt : Option JsDateTime
  searchConfig : Option Unit
  deriving Repr

/-! ## `toCronExpression` (server/scheduler.ts, lines 13–34) -/

/-- Translation of a schedule into a five-field cron string, exactly as
built by the template literals of the source. -/
def toCronExpression (s : Schedule) : String :=
  if s.frequency = "daily" then
    toString s.minute ++ " " ++ toString s.hour ++ " * * *"
  else if s.frequency = "weekly" then
    toString s.minute ++ " " ++ toString s.hour ++ " * * " ++
      toString (s.dayOfWeek.getD 0)
  else if s.frequency = "monthly" then
    toString s.minute ++ " " ++ toString s.hour ++ " " ++
      toString (s.dayOfMonth.getD 1) ++ " * *"
  else
    "0 0 * * *"

/-! ## `calculateNextRun` (server/scheduler.ts, lines 119–133) -/

/-- Function `calculateNextRun`: add one period to the current instant according to
the frequency (no period for an unrecognized frequency, as in the source),
then set the configured hour and minute. -/
def calculateNextRun (s : Schedule) (now : JsDateTime) : JsDateTime :=
  let next :=
    if s.frequency = "daily" then addDaysJs now 1
    else if s.frequency = "weekly" then addDaysJs now 7
    else if s.frequency = "monthly" then addMonthJs now
    else now
  setHoursJs next s.hour s.minute

/-! ## Schedule run state and `executeSearch` (server/scheduler.ts, 39–114)

`executeSearch` is the trigger callback.  Its effects on the schedule's
persisted run state (`lastRunAt`, `lastRunStatus`, `nextRunAt`) are modelled
as a function of the current state; the outcome of the self-invoked
`POST /api/search` HTTP call is the oracle `searchOk`.  The returned `Bool`
records whether the pipeline call was issued at all. -/

structure RunState where
  lastRunAt : Option JsDateTime
  lastRunStatus : Option String
  nextRunAt : Option JsDateTime
  deriving DecidableEq, Repr

/-- Function `executeSearch(schedule)`: skip entirely (no state write, no pipeline
call) when the enablement instant is still in the future; otherwise mark
the run `pending`, then either fail early when no search config is embedded
(caught, recorded as `error` with a recomputed next run) or issue the
search call and record `success`/`error` plus the recomputed next run. -/
def executeSearch (s : Schedule) (st : RunState) (now : JsDateTime)
    (searchOk : Bool) : RunState × Bool :=
  let proceed : RunState × Bool :=
    let st1 : RunState :=
      { st with lastRunAt := some now, lastRunStatus := some "pending" }
    match s.searchConfig with
    | none =>
        ({ st1 with lastRunStatus := some "error",
                    nextRunAt := some (calculateNextRun s now) }, false)
    | some _ =>
        if searchOk then
          ({ st1 with lastRunStatus := some "success",
                      nextRunAt := some (calculateNextRun s now) }, true)
        else
          ({ st1 with lastRunStatus := some "error",
                      nextRunAt := some (calculateNextRun s now) }, true)
  match s.enabledAt with
  | some en => if dateLt now en then (st, false) else proceed
  | none => proceed

/-! ## Task registry (server/scheduler.ts, 7 and 138–218)

`registeredTasks` is a JS `Map` from schedule id to the `cron.ScheduledTask`
handle.  Every `cron.schedule` call creates a fresh task object; a task
keeps firing until `stop()` is called on it.  The model keeps the list of
every task ever created (`tasks`, position = creation index, the `Bool` is
its stopped flag) and the map (`registered`, association list with JS
`Map.set` semantics).  node-cron's expression validation is the oracle
`cronOk`: `cron.schedule` throws — caught by the source — iff `cronOk` is
false on the generated expression. -/

structure RegState where
  tasks : List (String × Bool)
  registered : List (String × Nat)
  deriving DecidableEq, Repr

/-- Lookup in the `registeredTasks` map. -/
def mapGet (m : List (String × Nat)) (k : String) : Option Nat :=
  (m.find? (fun p => p.1 == k)).map (·.2)

/-- JS `Map.set`: replace any existing binding of `k`. -/
def mapSet (m : List (String × Nat)) (k : String) (v : Nat) :
    List (String × Nat) :=
  m.filter (fun p => !(p.1 == k)) ++ [(k, v)]

/-- JS `Map.delete`. -/
def mapDelete (m : List (String × Nat)) (k : String) : List (String × Nat) :=
  m.filter (fun p => !(p.1 == k))

/-- Effect of `task.stop()` on the task created at index `n`. -/
def stopTask : List (String × Bool) → Nat → List (String × Bool)
  | [], _ => []
  | t :: ts, 0 => (t.1, true) :: ts
  | t :: ts, n + 1 => t :: stopTask ts n

/-- Function `registerSchedule` (lines 138–165): skip disabled schedules; otherwise
create a cron task (unless node-cron rejects the expression — caught) and
store its handle in the map.  Note: the source never stops a task already
registered under the same id, and never consults `enabledAt` here. -/
def registerSchedule (cronOk : String → Bool) (s : Schedule)
    (st : RegState) : RegState :=
  if !s.isEnabled then st
  else if cronOk (toCronExpression s) then
    { tasks := st.tasks ++ [(s.id, false)],
      registered := mapSet st.registered s.id st.tasks.length }
  else st

/-- Function `unregisterSchedule` (lines 170–177): stop and drop the mapped task for
`id` when present. -/
def unregisterSchedule (id : String) (st : RegState) : RegState :=
  match mapGet st.registered id with
  | some tid =>
      { tasks := stopTask st.tasks tid,
        registered := mapDelete st.registered id }
  | none => st

/-- Function `refreshSchedule` (lines 205–211): unregister then re-register. -/
def refreshSchedule (cronOk : String → Bool) (s : Schedule)
    (st : RegState) : RegState :=
  registerSchedule cronOk s (unregisterSchedule s.id st)

/-- Tasks of `st` bound to schedule id `id` and not yet stopped. -/
def activeTasks (st : RegState) (id : String) : List (String × Bool) :=
  st.tasks.filter (fun t => t.1 == id && !t.2)

/-! ## String helpers for the pipeline

JS `String.prototype.includes` and ASCII `toLowerCase`, implemented on the
character lists of Lean strings. -/

/-- Whether `a` is a prefix of `b` (on character lists). -/
def isPrefixOfCL : List Char → List Char → Bool
  | [], _ => true
  | _ :: _, [] => false
  | a :: as, b :: bs => a == b && isPrefixOfCL as bs

/-- Predicate `containsCL l p`: `p` occurs as a contiguous sublist of `l`
(JS `includes`: the empty pattern always matches). -/
def containsCL (l p : List Char) : Bool :=
  isPrefixOfCL p l ||
    match l with
    | [] => false
    | _ :: xs => containsCL xs p

/-- JS `s.includes(pat)`. -/
def strContains (s pat : String) : Bool :=
  containsCL s.toList pat.toList

/-- JS `s.toLowerCase()` (ASCII, which covers every literal the pipeline
compares). -/
def lowerStr (s : String) : String :=
  String.mk (s.toList.map Char.toLower)

/-! ## Blogger leads storage (shared/schema.ts + server/storage.ts)

Only the columns the verified claims read are kept.  `blogger_leads.url`
carries a UNIQUE constraint, so a raw insert of an existing URL is rejected
by the database. -/

structure Lead where
  title : String
  url : String
  domain : String
  deriving DecidableEq, Repr

/-- Function `storage.createBloggerLead`: a plain insert; `none` models the unique-
constraint violation thrown when the URL already exists. -/
def createBloggerLead (db : List Lead) (l : Lead) : Option (List Lead) :=
  if db.any (fun x => x.url == l.url) then none else some (db ++ [l])

/-- Route `POST /api/blogger-leads` (server/routes.ts, 378–397): look the URL up
first; answer 409 without creating when it exists, else create.  The `Bool`
records whether a lead was created (201) or the request was rejected. -/
def postBloggerLead (db : List Lead) (l : Lead) : List Lead × Bool :=
  if ((db.find? (fun x => x.url == l.url)).isSome) then (db, false)
  else (db ++ [l], true)

/-! ## Candidate pipeline of `POST /api/search/test` (server/index.ts,
234–527)

The per-keyword candidate loop (lines 341–407), the image-waiver pass
(409–414) and the persistence loop (424–474) are modelled.  Network
behaviour is the oracle environment `Env`:
`imagesOf url` = `hasEnoughImages(url, 3)`, `emailOf` =
`fetchEmailFromPage`, `wordCountOf` = `fetchWordCount`, and `hostnameOf` =
`new URL(url).hostname` (`none` when the URL constructor throws). -/

structure Env where
  imagesOf : String → Bool
  emailOf : String → Option String
  wordCountOf : String → Option Nat
  hostnameOf : String → Option String

/-- The request-body switches read by the handler.  `badWords` is the
already-lowercased negative-keyword list (line 285). -/
structure Config where
  excludeGovEdu : Bool
  mustContainImages : Bool
  requireEmail : Bool
  avoidDuplicates : Bool
  badWords : List String
  minWords : Nat

/-- One organic search result. -/
structure RawItem where
  title : String
  snippet : String
  link : String
  deriving DecidableEq, Repr

/-- A candidate with its accumulated rejection reasons (lines 332–337). -/
structure Candidate where
  item : RawItem
  domain : String
  filteredDetails : List String
  contactEmail : String
  deriving DecidableEq, Repr

/-- Lines 379–385: `new URL(url).hostname.replace(/^www\./, "")`, falling
back to the raw URL when parsing throws. -/
def itemDomain (env : Env) (it : RawItem) : String :=
  match env.hostnameOf it.link with
  | some h => if isPrefixOfCL "www.".toList h.toList
      then String.mk (h.toList.drop 4) else h
  | none => it.link

/-- Line 385: `domain.toLowerCase()`. -/
def itemDomainKey (env : Env) (it : RawItem) : String :=
  lowerStr (itemDomain env it)

/-- The reason codes pushed for one URL-bearing item, in source order
(lines 351–399): gov/edu exclusion, negative keyword, image shortage,
missing email, duplicate domain against the running `existingDomains`
set. -/
def itemReasons (env : Env) (cfg : Config) (domains : List String)
    (it : RawItem) : List String :=
  let title := lowerStr it.title
  let snippet := lowerStr it.snippet
  let lowerUrl := lowerStr it.link
  let r1 : List String :=
    if cfg.excludeGovEdu &&
        (strContains lowerUrl ".gov" || strContains lowerUrl ".edu") then
      ["exclude_gov_edu"]
    else []
  let r2 :=
    if cfg.badWords.any
        (fun w => w != "" && (strContains title w || strContains snippet w))
      then r1 ++ ["negative_keyword"] else r1
  let r3 :=
    if cfg.mustContainImages && !env.imagesOf it.link then
      r2 ++ ["not_enough_images"]
    else r2
  let r4 :=
    if cfg.requireEmail && (env.emailOf it.link).isNone then
      r3 ++ ["missing_email"]
    else r3
  if cfg.avoidDuplicates && domains.contains (itemDomainKey env it) then
    r4 ++ ["duplicate_domain"]
  else r4

/-- Lines 387–395: the contact email recorded on the candidate. -/
def itemEmail (env : Env) (cfg : Config) (it : RawItem) : String :=
  if cfg.requireEmail then (env.emailOf it.link).getD "" else ""

/-- Mutable state of the candidate loop: the `existingDomains` set, the
accumulated candidate list, and `imageOkCount`. -/
structure PipeState where
  domains : List String
  candidates : List Candidate
  imageOkCount : Nat
  deriving Repr

/-- One iteration of the candidate loop (lines 341–407).  An item without a
link is recorded with the single reason `no_url` and skipped (line 345).
Otherwise the reasons are accumulated, `imageOkCount` is bumped when the
image probe succeeds, and — as in the source — the domain is added to
`existingDomains` whenever `duplicate_domain` was not raised and the domain
is new, regardless of any other rejection reasons (lines 401–404). -/
def processItem (env : Env) (cfg : Config) (st : PipeState)
    (it : RawItem) : PipeState :=
  if it.link = "" then
    { st with candidates := st.candidates ++
        [{ item := it, domain := "", filteredDetails := ["no_url"],
           contactEmail := "" }] }
  else
    let reasons := itemReasons env cfg st.domains it
    let dk := itemDomainKey env it
    { domains :=
        if !(reasons.contains "duplicate_domain") &&
            !(st.domains.contains dk) then
          st.domains ++ [dk]
        else st.domains,
      candidates := st.candidates ++
        [{ item := it, domain := itemDomain env it,
           filteredDetails := reasons,
           contactEmail := itemEmail env cfg it }],
      imageOkCount := st.imageOkCount +
        (if cfg.mustContainImages && env.imagesOf it.link then 1 else 0) }

/-- The whole candidate loop over one keyword's aggregated results,
starting from the caller-supplied known-domain set. -/
def evalCandidates (env : Env) (cfg : Config) (items : List RawItem)
    (existingDomains : List String) : PipeState :=
  items.foldl (processItem env cfg)
    { domains := existingDomains, candidates := [], imageOkCount := 0 }

/-- Lines 292–294: the known-domain set seeded from the persisted leads
(lowercased domains, empty ones dropped). -/
def initialDomains (leads : List Lead) : List String :=
  (leads.map (fun l => lowerStr l.domain)).filter (fun s => s != "")

/-- Lines 409–414: when images are required but no candidate passed the
image probe, strip `not_enough_images` from every candidate. -/
def applyWaiver (cfg : Config) (st : PipeState) : List Candidate :=
  if cfg.mustContainImages && st.imageOkCount == 0 then
    st.candidates.map (fun c =>
      { c with filteredDetails :=
          c.filteredDetails.filter (fun r => !(r == "not_enough_images")) })
  else st.candidates

/-- Line 417: candidates whose reason list ended up empty. -/
def acceptedCandidates (cands : List Candidate) : List Candidate :=
  cands.filter (fun c => c.filteredDetails.isEmpty)

/-- Line 448–464: the lead row built from an accepted candidate (columns
irrelevant to the claims omitted). -/
def mkLead (c : Candidate) : Lead :=
  { title := if c.item.title = "" then "(無標題)" else c.item.title,
    url := c.item.link,
    domain := c.domain }

/-- Word-count gate of the persistence loop (lines 432–446): with a
positive `minWords`, a candidate is skipped when its fetched word count is
unknown or below the configured minimum. -/
def belowMinWords (env : Env) (cfg : Config) (link : String) : Bool :=
  cfg.minWords > 0 &&
    !(match env.wordCountOf link with
      | some wc => decide (cfg.minWords ≤ wc)
      | none => false)

/-- Persistence loop (lines 424–474): skip link-less items, then apply the
word-count gate, then attempt the insert — a thrown unique-constraint
conflict is caught, logged and skipped, and the loop continues.  Returns
the final table and, in order, exactly the leads whose insert succeeded
(`savedLeads`). -/
def saveLeads (env : Env) (cfg : Config) :
    List Candidate → List Lead → List Lead × List Lead
  | [], db => (db, [])
  | c :: rest, db =>
    if c.item.link = "" then saveLeads env cfg rest db
    else if belowMinWords env cfg c.item.link then
      saveLeads env cfg rest db
    else
      match createBloggerLead db (mkLead c) with
      | some db1 =>
          let r := saveLeads env cfg rest db1
          (r.1, mkLead c :: r.2)
      | none => saveLeads env cfg rest db

/-! ## Settings (server/storage.ts, 267–295 and server/routes.ts, 232–234)

The `settings` table is a single row; only `serpResultsNum` matters to the
claims. -/

structure SettingsRow where
  serpResultsNum : Nat
  deriving DecidableEq, Repr

/-- Validator `settingsUpdateSchema`: the zod validator accepts any integer from 1 to
100 (when the field is present). -/
def settingsUpdateAccepts (n : Nat) : Bool :=
  1 ≤ n && n ≤ 100

/-- Function `updateSettings`: insert a fresh row (clamping
`Math.min(10, payload.serpResultsNum ?? 10)`) when no row exists, otherwise
update the existing row, clamping a supplied value with `Math.min(10, ·)`
and leaving the stored value alone when the payload omits it. -/
def updateSettings (row : Option SettingsRow) (payload : Option Nat) :
    SettingsRow :=
  match row with
  | none => { serpResultsNum := min 10 (payload.getD 10) }
  | some ex =>
    match payload with
    | some n => { ex with serpResultsNum := min 10 n }
    | none => ex

example : toCronExpression
    { id := "s1", name := "n", frequency := "daily", dayOfWeek := none,
      dayOfMonth := none, hour := 9, minute := 30, isEnabled := true,
      enabledAt := none, searchConfig := none } = "30 9 * * *" := by decide

example : toCronExpression
    { id := "s1", name := "n", frequency := "hourly", dayOfWeek := none,
      dayOfMonth := none, hour := 5, minute := 30, isEnabled := true,
      enabledAt := none, searchConfig := none } = "0 0 * * *" := by decide

example :
    calculateNextRun
      { id := "s1", name := "n", frequency := "monthly", dayOfWeek := none,
        dayOfMonth := none, hour := 9, minute := 30, isEnabled := true,
        enabledAt := none, searchConfig := none }
      { year := 2026, month := 0, day := 31, msOfDay := 0 } =
    { year := 2026, month := 2, day := 3, msOfDay := 34200000 } := by decide

/-! ## Concrete fixtures used by counterexamples and witnesses -/

/-- An enabled daily schedule, enablement instant in the past. -/
def schedDaily : Schedule :=
  { id := "s1", name := "daily search", frequency := "daily",
    dayOfWeek := none, dayOfMonth := none, hour := 9, minute := 30,
    isEnabled := true, enabledAt := some ⟨2025, 0, 1, 0⟩,
    searchConfig := some () }

/-- A schedule with an unrecognized frequency and a non-midnight time. -/
def schedHourly : Schedule :=
  { schedDaily with frequency := "hourly", hour := 5, minute := 30 }

/-- An enabled schedule whose enablement instant lies in the future of
`nowFix`. -/
def schedFutureEnable : Schedule :=
  { schedDaily with id := "s2", enabledAt := some ⟨2030, 0, 1, 0⟩ }

/-- A monthly schedule. -/
def schedMonthly : Schedule :=
  { schedDaily with
      id := "s3"
      frequency := "monthly"
      dayOfMonth := some 15 }

/-- A reference "current instant": 2026-10-11 08:00 local. -/
def nowFix : JsDateTime := ⟨2026, 9, 11, 28800000⟩

/-- The empty task registry (process start). -/
def regState0 : RegState := { tasks := [], registered := [] }

/-- A run state recording an in-flight (`pending`) previous run. -/
def statePending : RunState :=
  { lastRunAt := some ⟨2026, 9, 11, 28740000⟩,
    lastRunStatus := some "pending", nextRunAt := none }

/-! ## C1 — single-concurrent-run invariant

`executeSearch` consults only `enabledAt`; nothing inspects
`lastRunStatus`, so a fire while the previous run is still `pending` is
not dropped. -/

/-- C1: the mandated guard is absent from the source.  With the stored run
state still `pending` from an unfinished run, a second fire at an instant
past the enablement instant proceeds all the way to the pipeline call
(second component `true`) and overwrites the run state, instead of being
dropped as the claim requires. -/
theorem pendingRunFireNotDropped :
    (executeSearch schedDaily statePending nowFix true).2 = true ∧
    (executeSearch schedDaily statePending nowFix true).1.lastRunStatus =
      some "success" := by decide

/-! ## C9 — execution-time enablement check -/

/-- C9: on any trigger fire whose schedule's enablement instant is still
strictly in the future, `executeSearch` returns before touching the stored
run state and before issuing the pipeline call: the fire is a complete
no-op.  The check reads only the schedule and the current instant, so it is
performed on every fire, independently of registration. -/
theorem executeSearch_future_enablement_noop (s : Schedule) (st : RunState)
    (now en : JsDateTime) (ok : Bool) (hen : s.enabledAt = some en)
    (hfut : dateLt now en = true) :
    executeSearch s st now ok = (st, false) := by
  simp [executeSearch, hen, hfut]

/-- Witness for C9 at a concrete schedule and instant. -/
theorem executeSearch_future_enablement_noop_witness :
    schedFutureEnable.enabledAt = some ⟨2030, 0, 1, 0⟩ ∧
    dateLt nowFix ⟨2030, 0, 1, 0⟩ = true ∧
    executeSearch schedFutureEnable statePending nowFix true =
      (statePending, false) :=
  ⟨by decide, by decide,
    executeSearch_future_enablement_noop schedFutureEnable statePending
      nowFix ⟨2030, 0, 1, 0⟩ true (by decide) (by decide)⟩

/-! ## C3 — cron translation -/

/-- C3 counterexample: for an unrecognized frequency the source returns the
fixed midnight expression `"0 0 * * *"`, not the daily rule at the
schedule's own hour and minute (`"30 5 * * *"` here), refuting the claim's
fallback clause. -/
theorem toCronExpression_fallback_counterexample :
    toCronExpression schedHourly = "0 0 * * *" ∧
    toCronExpression schedHourly ≠ "30 5 * * *" := by decide

/-- C3 amended: `daily` fires at minute/hour every day, `weekly` at
minute/hour on the given day-of-week (absent day-of-week defaulting to 0),
`monthly` at minute/hour on the given day-of-month (absent day-of-month
defaulting to 1), and any other frequency falls back to the fixed
midnight-daily expression `0 0 * * *`, ignoring the schedule's hour and
minute; no input errors. -/
theorem toCronExpression_spec (s : Schedule) :
    (s.frequency = "daily" →
      toCronExpression s =
        toString s.minute ++ " " ++ toString s.hour ++ " * * *") ∧
    (s.frequency = "weekly" →
      toCronExpression s =
        toString s.minute ++ " " ++ toString s.hour ++ " * * " ++
          toString (s.dayOfWeek.getD 0)) ∧
    (s.frequency = "monthly" →
      toCronExpression s =
        toString s.minute ++ " " ++ toString s.hour ++ " " ++
          toString (s.dayOfMonth.getD 1) ++ " * *") ∧
    (s.frequency ≠ "daily" → s.frequency ≠ "weekly" →
      s.frequency ≠ "monthly" → toCronExpression s = "0 0 * * *") := by
  refine ⟨fun h => ?_, fun h => ?_, fun h => ?_, fun h1 h2 h3 => ?_⟩ <;>
    simp [toCronExpression, *]

/-- Witness for C3 amended on a concrete daily schedule. -/
theorem toCronExpression_spec_witness :
    toCronExpression schedDaily = "30 9 * * *" :=
  (toCronExpression_spec schedDaily).1 rfl

/-! ## C10 — settings clamp -/

/-- C10: `updateSettings` stores at most 10 in `serpResultsNum`: any
supplied value is clamped with `min 10`, the fresh-row path clamps as well,
and the stored value stays ≤ 10 across every update provided the existing
row already satisfied the bound; yet the HTTP schema accepts the whole
range 1–100. -/
theorem updateSettings_clamped (row : Option SettingsRow) (p : Option Nat)
    (hrow : ∀ r, row = some r → r.serpResultsNum ≤ 10) :
    (updateSettings row p).serpResultsNum ≤ 10 ∧
    (∀ (row' : Option SettingsRow) (n : Nat), 10 ≤ n →
      (updateSettings row' (some n)).serpResultsNum = 10) ∧
    (∀ n : Nat, 1 ≤ n → n ≤ 100 → settingsUpdateAccepts n = true) := by
  refine ⟨?_, ?_, ?_⟩
  · rcases row with _ | r
    · rcases p with _ | n <;> simp [updateSettings]
    · rcases p with _ | n
      · exact hrow r rfl
      · simp [updateSettings]
  · intro row' n hn
    rcases row' with _ | r <;> simp [updateSettings] <;> omega
  · intro n h1 h100
    simp [settingsUpdateAccepts]
    omega

/-- Witness for C10: a stored row at 10 updated with the schema-accepted
payload 50 stays at 10. -/
theorem updateSettings_clamped_witness :
    (updateSettings (some ⟨10⟩) (some 50)).serpResultsNum ≤ 10 ∧
    settingsUpdateAccepts 50 = true :=
  ⟨(updateSettings_clamped (some ⟨10⟩) (some 50)
      (by intro r h; cases h; decide)).1,
    (updateSettings_clamped (some ⟨10⟩) (some 50)
      (by intro r h; cases h; decide)).2.2 50 (by decide) (by decide)⟩

/-! ## Association-list lemmas for the `registeredTasks` map -/

theorem mapGet_cons (p : String × Nat) (m : List (String × Nat))
    (k : String) :
    mapGet (p :: m) k = if p.1 == k then some p.2 else mapGet m k := by
  cases h : (p.1 == k) <;> simp [mapGet, List.find?_cons, h]

theorem mapDelete_cons_drop (p : String × Nat) (m : List (String × Nat))
    (k : String) (h : p.1 = k) : mapDelete (p :: m) k = mapDelete m k := by
  simp [mapDelete, List.filter_cons, h]

theorem mapDelete_cons_keep (p : String × Nat) (m : List (String × Nat))
    (k : String) (h : ¬ p.1 = k) :
    mapDelete (p :: m) k = p :: mapDelete m k := by
  simp [mapDelete, List.filter_cons, h]

theorem mapSet_cons_drop (p : String × Nat) (m : List (String × Nat))
    (k : String) (v : Nat) (h : p.1 = k) :
    mapSet (p :: m) k v = mapSet m k v := by
  simp [mapSet, List.filter_cons, h]

theorem mapSet_cons_keep (p : String × Nat) (m : List (String × Nat))
    (k : String) (v : Nat) (h : ¬ p.1 = k) :
    mapSet (p :: m) k v = p :: mapSet m k v := by
  simp [mapSet, List.filter_cons, h]

theorem mapGet_set_self (m : List (String × Nat)) (k : String) (v : Nat) :
    mapGet (mapSet m k v) k = some v := by
  induction m with
  | nil => simp [mapSet, mapGet_cons, mapGet]
  | cons p m ih =>
    by_cases hp : p.1 = k
    · rw [mapSet_cons_drop p m k v hp]
      exact ih
    · have hpb : (p.1 == k) = false := by simp [hp]
      rw [mapSet_cons_keep p m k v hp, mapGet_cons, hpb]
      simpa using ih

theorem mapGet_set_ne (m : List (String × Nat)) (k k' : String) (v : Nat)
    (h : k' ≠ k) : mapGet (mapSet m k v) k' = mapGet m k' := by
  induction m with
  | nil =>
    have hkb : (k == k') = false := by simp [Ne.symm h]
    simp [mapSet, mapGet_cons, mapGet, hkb]
  | cons p m ih =>
    by_cases hp : p.1 = k
    · have hpb : (p.1 == k') = false := by simp [hp, Ne.symm h]
      rw [mapSet_cons_drop p m k v hp, mapGet_cons, hpb]
      simpa using ih
    · rw [mapSet_cons_keep p m k v hp, mapGet_cons, mapGet_cons]
      cases hc : (p.1 == k') with
      | true => simp
      | false => simpa using ih

theorem mapGet_delete_self (m : List (String × Nat)) (k : String) :
    mapGet (mapDelete m k) k = none := by
  induction m with
  | nil => rfl
  | cons p m ih =>
    by_cases hp : p.1 = k
    · rw [mapDelete_cons_drop p m k hp]
      exact ih
    · have hpb : (p.1 == k) = false := by simp [hp]
      rw [mapDelete_cons_keep p m k hp, mapGet_cons, hpb]
      simpa using ih

theorem mapGet_delete_ne (m : List (String × Nat)) (k k' : String)
    (h : k' ≠ k) : mapGet (mapDelete m k) k' = mapGet m k' := by
  induction m with
  | nil => rfl
  | cons p m ih =>
    by_cases hp : p.1 = k
    · have hpb : (p.1 == k') = false := by simp [hp, Ne.symm h]
      rw [mapDelete_cons_drop p m k hp, mapGet_cons, hpb]
      simpa using ih
    · rw [mapDelete_cons_keep p m k hp, mapGet_cons, mapGet_cons]
      cases hc : (p.1 == k') with
      | true => simp
      | false => simpa using ih

/-! ## `stopTask` lemmas -/

theorem stopTask_length (l : List (String × Bool)) (n : Nat) :
    (stopTask l n).length = l.length := by
  induction l generalizing n with
  | nil => rfl
  | cons t ts ih =>
    cases n with
    | zero => simp [stopTask]
    | succ n => simp [stopTask, ih]

theorem stopTask_get (l : List (String × Bool)) (n i : Nat)
    (h : i < l.length) (h' : i < (stopTask l n).length) :
    (stopTask l n).get ⟨i, h'⟩ =
      if i = n then ((l.get ⟨i, h⟩).1, true) else l.get ⟨i, h⟩ := by
  induction l generalizing n i with
  | nil => exact absurd h (by simp)
  | cons t ts ih =>
    cases n with
    | zero =>
      cases i with
      | zero => simp [stopTask]
      | succ i => simp [stopTask]
    | succ n =>
      cases i with
      | zero => simp [stopTask]
      | succ i =>
        have hlen : i < ts.length := by simpa using h
        have hlen' : i < (stopTask ts n).length := by
          simpa [stopTask] using h'
        simpa [stopTask, Nat.succ_inj] using ih n i hlen hlen'

/-! ## Registry invariant

`RegInv st` says that every task that is still running is the one the
`registeredTasks` map currently binds for its schedule id.  It holds for
the empty registry and is preserved by `unregisterSchedule`,
`refreshSchedule`, and by `registerSchedule` on an identifier with no
current binding — which is how the routes use them (`register` only on
freshly created ids, `refresh` on mutation, `unregister` on deletion). -/

def RegInv (st : RegState) : Prop :=
  ∀ i (h : i < st.tasks.length),
    (st.tasks.get ⟨i, h⟩).2 = false →
    mapGet st.registered (st.tasks.get ⟨i, h⟩).1 = some i

theorem regInv_empty : RegInv regState0 := by
  intro i h
  exact absurd h (by simp [regState0])

theorem regInv_unregister (id : String) (st : RegState) (h : RegInv st) :
    RegInv (unregisterSchedule id st) := by
  rcases hm : mapGet st.registered id with _ | tid
  · simpa [unregisterSchedule, hm] using h
  · simp only [unregisterSchedule, hm]
    intro i hi hact
    have hlen : i < st.tasks.length := by
      simpa [stopTask_length] using hi
    by_cases hit : i = tid
    · subst hit
      rw [stopTask_get st.tasks i i hlen hi] at hact
      simp at hact
    · rw [stopTask_get st.tasks tid i hlen hi] at hact ⊢
      simp only [hit, if_false] at hact ⊢
      have h0 := h i hlen hact
      by_cases hkey : (st.tasks.get ⟨i, hlen⟩).1 = id
      · rw [hkey, hm] at h0
        cases h0
        exact absurd rfl hit
      · rw [mapGet_delete_ne _ _ _ hkey]
        exact h0

theorem regInv_register_fresh (cronOk : String → Bool) (s : Schedule)
    (st : RegState) (h : RegInv st)
    (hfresh : mapGet st.registered s.id = none) :
    RegInv (registerSchedule cronOk s st) := by
  by_cases he : s.isEnabled
  · by_cases hc : cronOk (toCronExpression s)
    · have hreg : registerSchedule cronOk s st =
          { tasks := st.tasks ++ [(s.id, false)],
            registered := mapSet st.registered s.id st.tasks.length } := by
        simp [registerSchedule, he, hc]
      rw [hreg]
      intro i hi hact
      dsimp only at hi hact ⊢
      by_cases hlt : i < st.tasks.length
      · have hg : ((st.tasks ++ [(s.id, false)]).get ⟨i, hi⟩)
            = st.tasks.get ⟨i, hlt⟩ := by
          simp [List.getElem_append_left hlt]
        rw [hg] at hact ⊢
        have h0 := h i hlt hact
        by_cases hkey : (st.tasks.get ⟨i, hlt⟩).1 = s.id
        · rw [hkey, hfresh] at h0
          cases h0
        · rw [mapGet_set_ne _ _ _ _ hkey]
          exact h0
      · have hi' : i < st.tasks.length + 1 := by simpa using hi
        have hieq : i = st.tasks.length := by omega
        subst hieq
        have hg : ((st.tasks ++ [(s.id, false)]).get ⟨st.tasks.length, hi⟩)
            = (s.id, false) := by simp
        rw [hg]
        exact mapGet_set_self st.registered s.id st.tasks.length
    · simpa [registerSchedule, he, hc] using h
  · simpa [registerSchedule, he] using h

theorem mapGet_unregister_self (id : String) (st : RegState) :
    mapGet (unregisterSchedule id st).registered id = none := by
  rcases hm : mapGet st.registered id with _ | tid
  · simp [unregisterSchedule, hm]
  · simp [unregisterSchedule, hm, mapGet_delete_self]

theorem regInv_refresh (cronOk : String → Bool) (s : Schedule)
    (st : RegState) (h : RegInv st) :
    RegInv (refreshSchedule cronOk s st) :=
  regInv_register_fresh cronOk s (unregisterSchedule s.id st)
    (regInv_unregister s.id st h) (mapGet_unregister_self s.id st)

/-! ## C2 — registration conditions -/

/-- C2 counterexample: an enabled schedule whose enablement instant
(2030-01-01) is strictly in the future of the current instant still gets a
trigger created and registered by `registerSchedule` — the source never
consults `enabledAt` during registration, refuting the claim's
"enablement instant not strictly in the future" conjunct. -/
theorem registerIgnoresEnablementInstant :
    dateLt nowFix ⟨2030, 0, 1, 0⟩ = true ∧
    schedFutureEnable.enabledAt = some ⟨2030, 0, 1, 0⟩ ∧
    (registerSchedule (fun _ => true) schedFutureEnable regState0).tasks =
      [("s2", false)] ∧
    mapGet (registerSchedule (fun _ => true) schedFutureEnable
        regState0).registered "s2" = some 0 := by decide

/-- C2 amended: `register(schedule)` creates (and registers) a trigger iff
the schedule is enabled, provided node-cron accepts the generated
expression; the enablement instant plays no role at registration time — it
is re-checked on every fire instead. -/
theorem registerSchedule_spec (cronOk : String → Bool) (s : Schedule)
    (st : RegState) (en : Option JsDateTime)
    (hc : cronOk (toCronExpression s) = true) :
    (s.isEnabled = false → registerSchedule cronOk s st = st) ∧
    (s.isEnabled = true →
      (registerSchedule cronOk s st).tasks = st.tasks ++ [(s.id, false)] ∧
      mapGet (registerSchedule cronOk s st).registered s.id =
        some st.tasks.length) ∧
    registerSchedule cronOk { s with enabledAt := en } st =
      registerSchedule cronOk s st := by
  refine ⟨fun he => ?_, fun he => ⟨?_, ?_⟩, ?_⟩
  · simp [registerSchedule, he]
  · simp [registerSchedule, he, hc]
  · simp [registerSchedule, he, hc, mapGet_set_self]
  · have hc' : cronOk (toCronExpression { s with enabledAt := en }) = true
      := by simpa [toCronExpression] using hc
    by_cases he : s.isEnabled <;>
      simp [registerSchedule, he, hc, hc', toCronExpression]

/-- Witness for C2 amended: registering the enabled fixture schedule in
the empty registry creates exactly its trigger. -/
theorem registerSchedule_spec_witness :
    (registerSchedule (fun _ => true) schedDaily regState0).tasks =
      [("s1", false)] :=
  by simpa [regState0] using
    ((registerSchedule_spec (fun _ => true) schedDaily regState0 none
      rfl).2.1 rfl).1

/-! ## C4 — at most one active trigger per schedule id -/

/-- C4 counterexample: calling `registerSchedule` twice for the same
schedule id leaves TWO non-stopped cron tasks for that id — the source
overwrites the map entry without stopping the previous task, refuting both
the "stopped and replaced" clause and the "at most one active trigger
after any sequence of register/refresh/unregister calls" clause. -/
theorem registerSchedule_twice_two_active :
    (activeTasks
      (registerSchedule (fun _ => true) schedDaily
        (registerSchedule (fun _ => true) schedDaily regState0))
      "s1").length = 2 := by decide

/-- C4 amended: `refreshSchedule` (used after every mutation) and
`unregisterSchedule` do stop the previously registered trigger, and they
preserve the registry invariant `RegInv`; `registerSchedule` alone
preserves it only for an identifier with no current binding (the
fresh-creation path, the only way the routes call it).  Under `RegInv`, at
most one active (non-stopped) trigger exists per schedule identifier. -/
theorem registry_single_active_trigger (cronOk : String → Bool)
    (s : Schedule) (id : String) (st : RegState) (h : RegInv st) :
    RegInv (unregisterSchedule id st) ∧
    RegInv (refreshSchedule cronOk s st) ∧
    (mapGet st.registered s.id = none →
      RegInv (registerSchedule cronOk s st)) ∧
    (∀ i j (hi : i < st.tasks.length) (hj : j < st.tasks.length),
      (st.tasks.get ⟨i, hi⟩).2 = false →
      (st.tasks.get ⟨j, hj⟩).2 = false →
      (st.tasks.get ⟨i, hi⟩).1 = (st.tasks.get ⟨j, hj⟩).1 → i = j) := by
  refine ⟨regInv_unregister id st h, regInv_refresh cronOk s st h,
    fun hf => regInv_register_fresh cronOk s st h hf, ?_⟩
  intro i j hi hj hai haj hsid
  have h1 := h i hi hai
  have h2 := h j hj haj
  rw [hsid] at h1
  rw [h1] at h2
  cases h2
  rfl

/-- Witness for C4 amended: the invariant holds after a register–refresh
sequence from the empty registry. -/
theorem registry_single_active_trigger_witness :
    RegInv (refreshSchedule (fun _ => true) schedDaily
      (registerSchedule (fun _ => true) schedDaily regState0)) :=
  (registry_single_active_trigger (fun _ => true) schedDaily "s1"
    (registerSchedule (fun _ => true) schedDaily regState0)
    ((registry_single_active_trigger (fun _ => true) schedDaily "s1"
      regState0 regInv_empty).2.2.1 (by decide))).2.1

/-! ## Pipeline fixtures -/

/-- Environment in which no page has ≥3 images; hostnames resolve to the
link itself. -/
def envNoImages : Env :=
  { imagesOf := fun _ => false, emailOf := fun _ => none,
    wordCountOf := fun _ => none, hostnameOf := fun u => some u }

/-- Environment in which only `a.com` has ≥3 images. -/
def envOnlyAImages : Env :=
  { envNoImages with imagesOf := fun u => u == "a.com" }

/-- Environment in which every item resolves to the single hostname
`d.com`. -/
def envOneDomain : Env :=
  { imagesOf := fun _ => true, emailOf := fun _ => none,
    wordCountOf := fun _ => none, hostnameOf := fun _ => some "d.com" }

/-- Image filter on, negative keyword `spam`, nothing else. -/
def cfgImages : Config :=
  { excludeGovEdu := false, mustContainImages := true,
    requireEmail := false, avoidDuplicates := false,
    badWords := ["spam"], minWords := 0 }

/-- Cross-batch dedup on, negative keyword `spam`, image filter off. -/
def cfgDedup : Config :=
  { excludeGovEdu := false, mustContainImages := false,
    requireEmail := false, avoidDuplicates := true,
    badWords := ["spam"], minWords := 0 }

/-- An item whose title hits the negative keyword. -/
def itemSpamA : RawItem :=
  { title := "spam blog", snippet := "", link := "a.com" }

/-- A clean item. -/
def itemCleanB : RawItem :=
  { title := "clean blog", snippet := "", link := "b.com" }

/-- Items sharing the hostname `d.com` under `envOneDomain`. -/
def itemSpamD1 : RawItem :=
  { title := "spam post", snippet := "", link := "http://d.com/1" }

def itemCleanD2 : RawItem :=
  { title := "good post", snippet := "", link := "http://d.com/2" }

/-! ## C5 — image-rejection waiver -/

/-- C5 counterexample.  The source waives `not_enough_images` exactly when
`imageOkCount` is zero, not when every surviving candidate would be
rejected *solely* for insufficient images.  Two concrete batches refute
the claim's "exactly when", one in each direction:
(1) both items lack images and one also hits a negative keyword — no
candidate is rejected solely for images, yet the waiver fires for the
whole batch;
(2) the only item lacking images would be rejected solely for images, but
another (already otherwise-rejected) item passes the image probe — the
claim's condition holds, yet no waiver fires and the image reason
remains. -/
theorem imageWaiver_counterexample :
    ((evalCandidates envNoImages cfgImages [itemSpamA, itemCleanB]
        []).candidates.map Candidate.filteredDetails =
      [["negative_keyword", "not_enough_images"], ["not_enough_images"]]) ∧
    ((applyWaiver cfgImages
        (evalCandidates envNoImages cfgImages [itemSpamA, itemCleanB]
          [])).map Candidate.filteredDetails =
      [["negative_keyword"], []]) ∧
    ((applyWaiver cfgImages
        (evalCandidates envOnlyAImages cfgImages [itemSpamA, itemCleanB]
          [])).map Candidate.filteredDetails =
      [["negative_keyword"], ["not_enough_images"]]) := by decide

/-- Counter of items passing the image probe, for the amended C5. -/
def imageOkItems (env : Env) (items : List RawItem) : List RawItem :=
  items.filter (fun it => !(it.link == "") && env.imagesOf it.link)

theorem processItem_imageOkCount (env : Env) (cfg : Config)
    (st : PipeState) (it : RawItem) :
    (processItem env cfg st it).imageOkCount =
      st.imageOkCount +
        (if !(it.link == "") && cfg.mustContainImages &&
            env.imagesOf it.link then 1 else 0) := by
  by_cases h : it.link = ""
  · simp [processItem, h]
  · by_cases hm : cfg.mustContainImages
    · by_cases hi : env.imagesOf it.link <;> simp [processItem, h, hm, hi]
    · simp [processItem, h, hm]

theorem foldl_imageOkCount (env : Env) (cfg : Config)
    (hM : cfg.mustContainImages = true) (items : List RawItem)
    (st : PipeState) :
    (items.foldl (processItem env cfg) st).imageOkCount =
      st.imageOkCount + (imageOkItems env items).length := by
  induction items generalizing st with
  | nil => simp [imageOkItems]
  | cons it rest ih =>
    rw [List.foldl_cons, ih]
    rw [processItem_imageOkCount]
    simp only [imageOkItems, List.filter_cons, hM, Bool.and_true]
    cases hcond : (!(it.link == "") && env.imagesOf it.link) with
    | false => simp [hcond]
    | true =>
      simp [hcond]
      omega

/-- C5 amended: with `mustContainImages` on, the waiver fires exactly when
zero candidates of the batch passed the ≥3-images probe (`imageOkCount`
counts precisely the link-bearing items whose page has enough images),
regardless of what other rejection reasons those candidates carry.  When
it fires, no candidate of the batch keeps the `not_enough_images` reason —
the remaining filters alone decide acceptance; when some candidate passed
the probe, the candidate list is left untouched. -/
theorem image_waiver_spec (env : Env) (cfg : Config) (items : List RawItem)
    (ed : List String) (hM : cfg.mustContainImages = true) :
    ((evalCandidates env cfg items ed).imageOkCount =
      (imageOkItems env items).length) ∧
    ((evalCandidates env cfg items ed).imageOkCount = 0 →
      ∀ c ∈ applyWaiver cfg (evalCandidates env cfg items ed),
        "not_enough_images" ∉ c.filteredDetails) ∧
    ((evalCandidates env cfg items ed).imageOkCount ≠ 0 →
      applyWaiver cfg (evalCandidates env cfg items ed) =
        (evalCandidates env cfg items ed).candidates) := by
  refine ⟨?_, ?_, ?_⟩
  · simpa [evalCandidates] using
      foldl_imageOkCount env cfg hM items
        { domains := ed, candidates := [], imageOkCount := 0 }
  · intro h0 c hc
    rw [applyWaiver, if_pos (by simp [hM, h0])] at hc
    rcases List.mem_map.mp hc with ⟨c0, _, rfl⟩
    intro hmem
    rcases List.mem_filter.mp hmem with ⟨_, hbad⟩
    simp at hbad
  · intro h0
    rw [applyWaiver, if_neg (by simp [h0])]

/-- Witness for C5 amended at a concrete all-fail batch. -/
theorem image_waiver_spec_witness :
    cfgImages.mustContainImages = true ∧
    (evalCandidates envNoImages cfgImages [itemSpamA, itemCleanB]
      []).imageOkCount = (imageOkItems envNoImages
        [itemSpamA, itemCleanB]).length :=
  ⟨by decide,
    (image_waiver_spec envNoImages cfgImages [itemSpamA, itemCleanB] []
      (by decide)).1⟩

/-! ## C6 — cross-batch domain deduplication -/

/-- C6: the rejection side of the claim matches the source (reason
`duplicate_domain` is raised iff `avoidDuplicates` is on and the
normalized domain is already known), but the source adds a candidate's
domain to the known set whenever `duplicate_domain` was not raised and the
domain is new — even when the candidate is rejected by other filters —
contradicting both the claim's "only on acceptance" and the source's own
comment ("若目前沒有任何理由則視為暫時通過": treat as provisionally passed
only if there is currently no reason).  Concretely: `itemSpamD1` is
rejected for `negative_keyword`, never accepted, yet its domain `d.com`
enters the set, so the clean `itemCleanD2` on the same domain is rejected
as `duplicate_domain`. -/
theorem domainDedup_added_without_acceptance :
    ((evalCandidates envOneDomain cfgDedup [itemSpamD1] []).candidates.map
        Candidate.filteredDetails = [["negative_keyword"]]) ∧
    (acceptedCandidates
        (evalCandidates envOneDomain cfgDedup [itemSpamD1] []).candidates
      = []) ∧
    ((evalCandidates envOneDomain cfgDedup [itemSpamD1] []).domains =
      ["d.com"]) ∧
    ((evalCandidates envOneDomain cfgDedup [itemSpamD1, itemCleanD2]
        []).candidates.map Candidate.filteredDetails =
      [["negative_keyword"], ["duplicate_domain"]]) := by decide

/-! ## C7 — lead persistence never duplicates nor aborts -/

theorem createBloggerLead_some (db : List Lead) (l : Lead)
    (db1 : List Lead) (h : createBloggerLead db l = some db1) :
    db1 = db ++ [l] ∧ db.any (fun x => x.url == l.url) = false := by
  cases hd : db.any (fun x => x.url == l.url) <;>
    simp [createBloggerLead, hd] at h
  exact ⟨h.symm, rfl⟩

theorem saveLeads_eq_append (env : Env) (cfg : Config)
    (cands : List Candidate) (db : List Lead) :
    (saveLeads env cfg cands db).1 = db ++ (saveLeads env cfg cands db).2
    := by
  induction cands generalizing db with
  | nil => simp [saveLeads]
  | cons c rest ih =>
    by_cases h1 : c.item.link = ""
    · simpa [saveLeads, h1] using ih db
    · cases h2 : belowMinWords env cfg c.item.link with
      | true => simpa [saveLeads, h1, h2] using ih db
      | false =>
        cases h3 : createBloggerLead db (mkLead c) with
        | none => simpa [saveLeads, h1, h2, h3] using ih db
        | some db1 =>
          have hd := createBloggerLead_some db (mkLead c) db1 h3
          simp only [saveLeads, h1, h2, h3, if_false, Bool.false_eq_true,
            if_neg]
          rw [ih db1, hd.1]
          simp

theorem saveLeads_nodup (env : Env) (cfg : Config)
    (cands : List Candidate) (db : List Lead)
    (hnd : (db.map Lead.url).Nodup) :
    ((saveLeads env cfg cands db).1.map Lead.url).Nodup := by
  induction cands generalizing db with
  | nil => simpa [saveLeads] using hnd
  | cons c rest ih =>
    by_cases h1 : c.item.link = ""
    · simpa [saveLeads, h1] using ih db hnd
    · cases h2 : belowMinWords env cfg c.item.link with
      | true => simpa [saveLeads, h1, h2] using ih db hnd
      | false =>
        cases h3 : createBloggerLead db (mkLead c) with
        | none => simpa [saveLeads, h1, h2, h3] using ih db hnd
        | some db1 =>
          have hd := createBloggerLead_some db (mkLead c) db1 h3
          have hnotin : (mkLead c).url ∉ db.map Lead.url := by
            intro hmem
            rcases List.mem_map.mp hmem with ⟨x, hx, hxe⟩
            rw [List.any_eq_false] at hd
            exact absurd (by simp [hxe]) (hd.2 x hx)
          have hnd1 : (db1.map Lead.url).Nodup := by
            rw [hd.1, List.map_append]
            exact hnd.append (by simp)
              (by simpa [List.disjoint_singleton] using hnotin)
          simpa [saveLeads, h1, h2, h3] using ih db1 hnd1

/-- C7: lead persistence never duplicates nor aborts on a URL conflict.
The `POST /api/blogger-leads` route rejects (409) a create for an existing
URL without adding a row; the raw insert itself fails on such a URL (the
UNIQUE constraint); inside a pipeline run the conflict is a per-candidate
skip after which the loop continues, the final table is exactly the
initial one extended by the reported `savedLeads`, and URL-uniqueness of
the table is preserved across the whole run. -/
theorem lead_persistence_spec (env : Env) (cfg : Config)
    (cands : List Candidate) (db : List Lead) (l : Lead)
    (hdup : l.url ∈ db.map Lead.url) :
    postBloggerLead db l = (db, false) ∧
    createBloggerLead db l = none ∧
    (saveLeads env cfg cands db).1 = db ++ (saveLeads env cfg cands db).2 ∧
    ((db.map Lead.url).Nodup →
      ((saveLeads env cfg cands db).1.map Lead.url).Nodup) := by
  rcases List.mem_map.mp hdup with ⟨x, hx, hxe⟩
  refine ⟨?_, ?_, saveLeads_eq_append env cfg cands db,
    fun h => saveLeads_nodup env cfg cands db h⟩
  · have hfind : (db.find? (fun y => y.url == l.url)).isSome = true := by
      rw [List.find?_isSome]
      exact ⟨x, hx, by simp [hxe]⟩
    simp [postBloggerLead, hfind]
  · have hany : db.any (fun y => y.url == l.url) = true := by
      rw [List.any_eq_true]
      exact ⟨x, hx, by simp [hxe]⟩
    simp [createBloggerLead, hany]

/-- A persisted lead used by the C7 witness. -/
def leadFix : Lead :=
  { title := "t", url := "http://d.com/1", domain := "d.com" }

/-- Witness for C7: re-creating an already-persisted URL is rejected by
the route without a second row. -/
theorem lead_persistence_spec_witness :
    leadFix.url ∈ [leadFix].map Lead.url ∧
    postBloggerLead [leadFix] leadFix = ([leadFix], false) :=
  ⟨by decide,
    (lead_persistence_spec envNoImages cfgImages [] [leadFix] leadFix
      (by decide)).1⟩

/-! ## C8 — recomputed next run is strictly in the future -/

/-- C8: for every schedule of the data model (frequency `daily`, `weekly`
or `monthly`) and every valid current instant, `calculateNextRun` adds
exactly one period (1 day / 7 days / 1 month in JS `setDate`/`setMonth`
semantics) to the current instant, then sets the configured hour and
minute — and the resulting instant is strictly after the instant at which
it was computed. -/
theorem calculateNextRun_strictly_after (s : Schedule) (now : JsDateTime)
    (_hv : validDate now)
    (hf : s.frequency = "daily" ∨ s.frequency = "weekly" ∨
      s.frequency = "monthly") :
    (s.frequency = "daily" →
      calculateNextRun s now = setHoursJs (addDaysJs now 1) s.hour s.minute)
    ∧
    (s.frequency = "weekly" →
      calculateNextRun s now = setHoursJs (addDaysJs now 7) s.hour s.minute)
    ∧
    (s.frequency = "monthly" →
      calculateNextRun s now = setHoursJs (addMonthJs now) s.hour s.minute)
    ∧
    dateLt now (calculateNextRun s now) = true := by
  have hdays : ∀ k : Nat, 0 < k →
      dateLt now (setHoursJs (addDaysJs now k) s.hour s.minute) = true := by
    intro k hk
    simp only [addDaysJs, setHoursJs, dateLt]
    split_ifs <;> simp
    all_goals omega
  have hmon :
      dateLt now (setHoursJs (addMonthJs now) s.hour s.minute) = true := by
    simp only [addMonthJs, setHoursJs, dateLt]
    split_ifs <;> simp
    all_goals omega
  refine ⟨fun h => by simp [calculateNextRun, h],
    fun h => by simp [calculateNextRun, h],
    fun h => by simp [calculateNextRun, h], ?_⟩
  rcases hf with h | h | h
  · simpa [calculateNextRun, h] using hdays 1 (by omega)
  · simpa [calculateNextRun, h] using hdays 7 (by omega)
  · simpa [calculateNextRun, h] using hmon

/-- Witness for C8: a monthly schedule computed on 2026-01-31 (a JS
day-overflow case) yields an instant strictly after the computation
instant. -/
theorem calculateNextRun_strictly_after_witness :
    validDate ⟨2026, 0, 31, 50000000⟩ ∧
    schedMonthly.frequency = "monthly" ∧
    dateLt ⟨2026, 0, 31, 50000000⟩
      (calculateNextRun schedMonthly ⟨2026, 0, 31, 50000000⟩) = true :=
  ⟨by unfold validDate; decide, rfl,
    (calculateNextRun_strictly_after schedMonthly ⟨2026, 0, 31, 50000000⟩
      (by unfold validDate; decide) (Or.inr (Or.inr rfl))).2.2.2⟩

end BlogInsightHub
